import Mathlib

/-!
Verification development for the gx-go import-rewriting tool (main.go).

Shallow embedding conventions:
* Go strings are modelled as `List Char` (`Str`); all strings of interest are
  ASCII, so Go's byte indexing and char indexing coincide.
* Go maps (`map[string]string`) are modelled as association lists in insertion
  order with unique keys (`Table`); `m[k] = v` is `mapInsert`, `m[k]` lookup is
  `lookupTable`.  Go's `range` over a map iterates in an unspecified order; in
  the model the iteration order is the list order, so a universally quantified
  table covers every possible iteration order.
* Filesystem and JSON parsing (`gx.FindPackageInDir`) are modelled as an
  environment function `Str → Except Str Package` from a directory path to the
  parse result; `os.Getenv("GOPATH")` is an explicit `gopathEnv` argument; the
  process-global `cwd` is an explicit argument.
* Unbounded recursion over the dependency graph (`buildRewriteMapping`,
  `buildMap`) is given an explicit fuel parameter; running out of fuel yields
  a sentinel error that no theorem relies on (every theorem supplies enough
  fuel for the tree shape it talks about).
-/

/-- Go strings, as lists of characters. -/
abbrev Str := List Char

/-- Embed a Lean string literal as a `Str`. -/
def str (s : String) : Str := s.data

deriving instance DecidableEq for Except

/-- Go `strings.Split(s, sep)` for a one-character separator, accumulator form. -/
def splitOnCharAux (sep : Char) : Str → Str → List Str
  | [], acc => [acc.reverse]
  | c :: rest, acc =>
    if c = sep then acc.reverse :: splitOnCharAux sep rest []
    else splitOnCharAux sep rest (c :: acc)

/-- Go `strings.Split(s, string(sep))`: split on every occurrence of `sep`;
`""` splits to `[""]`. -/
def splitOnChar (s : Str) (sep : Char) : List Str := splitOnCharAux sep s []

/-- One step of Go `path.Clean`'s segment processing: skip empty and `.`
segments, let `..` pop a previous segment (or survive at the head of a
relative path). The accumulator holds the output segments in reverse. -/
def cleanSegStep (rooted : Bool) (acc : List Str) (s : Str) : List Str :=
  if s = [] ∨ s = str "." then acc
  else if s = str ".." then
    match acc with
    | [] => if rooted then [] else [str ".."]
    | a :: rest => if a = str ".." then s :: a :: rest else rest
  else s :: acc

/-- Go `path.Clean` (lexical path cleaning), via segment processing. -/
def goClean (p : Str) : Str :=
  if p = [] then str "."
  else
    let rooted := (str "/").isPrefixOf p
    let segs := splitOnChar p '/'
    let out := (segs.foldl (cleanSegStep rooted) []).reverse
    let body := (str "/").intercalate out
    if rooted then str "/" ++ body
    else if body = [] then str "." else body

/-- Go `path.Join` / `filepath.Join` on Unix: concatenate the elements with
`/`, skipping leading empty elements, then `Clean`; all-empty input gives
the empty path. -/
def goJoin (elems : List Str) : Str :=
  if elems.all (· = []) then []
  else
    goClean (elems.foldl
      (fun buf e => if buf = [] ∧ e = [] then buf
                    else if buf = [] then e else buf ++ str "/" ++ e) [])

/-- `vendorDir = filepath.Join("vendor", "gx", "ipfs")`. -/
def vendorDir : Str := goJoin [str "vendor", str "gx", str "ipfs"]

/-- The `GoInfo` struct: go-specific extra info of a package. -/
structure GoInfo where
  dvcsimport : Str
  goversion : Str
deriving DecidableEq, Repr

/-- A dependency reference (`gx.Dependency`): the fields read by this tool. -/
structure Dependency where
  name : Str
  hash : Str
deriving DecidableEq, Repr

/-- The `Package` struct: the fields of `gx.PackageBase` read by this tool,
plus the nested `Gx GoInfo` block. -/
structure Package where
  name : Str
  dependencies : List Dependency
  gx : GoInfo
deriving DecidableEq, Repr

/-- A Go `map[string]string`, as an association list in insertion order. -/
abbrev Table := List (Str × Str)

/-- Go map read `m[k]`. -/
def lookupTable : Table → Str → Option Str
  | [], _ => none
  | (a, b) :: rest, k => if a = k then some b else lookupTable rest k

/-- Go map write `m[k] = v`: replace the binding if the key is present,
otherwise append it. -/
def mapInsert : Table → Str → Str → Table
  | [], k, v => [(k, v)]
  | (a, b) :: rest, k, v =>
    if a = k then (k, v) :: rest else (a, b) :: mapInsert rest k v

/-- Go `strings.Index(s, pat)`: index of the first occurrence of `pat` in
`s` (`0` for the empty pattern), `none` when absent. -/
def indexOfSub : Str → Str → Option Nat
  | [], pat => if pat.isPrefixOf [] then some 0 else none
  | c :: t, pat =>
    if pat.isPrefixOf (c :: t) then some 0
    else (indexOfSub t pat).map (· + 1)

/-- Go `strings.Replace(s, old, new, 1)`: replace the first occurrence of
`old` in `s` by `new`; `s` unchanged when `old` does not occur. -/
def goReplaceOnce (s old new : Str) : Str :=
  match indexOfSub s old with
  | none => s
  | some i => s.take i ++ new ++ s.drop (i + old.length)

/-- Go `strconv.Atoi`: optional sign, then one or more decimal digits,
value range of a 64-bit `int`; everything else is an error. -/
def goAtoi (s : Str) : Except Unit Int :=
  match s with
  | [] => .error ()
  | c :: rest =>
    let neg := c = '-'
    let digits := if c = '-' ∨ c = '+' then rest else c :: rest
    if digits = [] then .error ()
    else if digits.all Char.isDigit then
      let n : Nat := digits.foldl (fun acc d => acc * 10 + (d.toNat - '0'.toNat)) 0
      if neg then
        if n ≤ 2 ^ 63 then .ok (-(n : Int)) else .error ()
      else
        if n ≤ 2 ^ 63 - 1 then .ok (n : Int) else .error ()
    else .error ()

/-- The loop of `versionComp`: walk the (equal-length) component lists in
step, parse each pair with `Atoi`, decide at the first strict difference. -/
def versionCompLoop : List Str → List Str → Except Unit Bool
  | x :: xs, y :: ys =>
    match goAtoi x with
    | .error e => .error e
    | .ok hv =>
      match goAtoi y with
      | .error e => .error e
      | .ok rv =>
        if hv < rv then .ok true
        else if rv < hv then .ok false
        else versionCompLoop xs ys
  | _, _ => .ok false

/-- `versionComp(have, req)`: split both on `.`, truncate to the shorter
length, then compare component-wise (`true` means `have` is too old). -/
def versionComp (hav req : Str) : Except Unit Bool :=
  let hp := splitOnChar hav '.'
  let rp := splitOnChar req '.'
  let l := Nat.min hp.length rp.length
  versionCompLoop (hp.take l) (rp.take l)

/-- `getGoPath`: fail when `$GOPATH` is empty, else the first
`filepath.SplitList` entry (split on `:`). -/
def getGoPath (gopathEnv : Str) : Except Str Str :=
  if gopathEnv = [] then .error (str "GOPATH not set")
  else .ok ((splitOnChar gopathEnv ':').headD [])

/-- `getImportPath(pkgpath)`: derives the import path of the process-global
`cwd` under `$GOPATH/src/`; the `pkgpath` argument is never read. -/
def getImportPath (gopathEnv cwd : Str) (pkgpath : Str) : Except Str Str :=
  match getGoPath gopathEnv with
  | .error _ => .error (str "GOPATH not set, cannot derive import path")
  | .ok gopath =>
    let srcdir := goJoin [gopath, str "src"] ++ str "/"
    if srcdir.isPrefixOf cwd then .ok (cwd.drop srcdir.length)
    else .error (str "package not within GOPATH/src")

/-- `packagesGoImport(p)`: the import path of directory `p` under
`$GOPATH/src/`. -/
def packagesGoImport (gopathEnv : Str) (p : Str) : Except Str Str :=
  match getGoPath gopathEnv with
  | .error e => .error e
  | .ok gopath =>
    let srcdir := goJoin [gopath, str "src"] ++ str "/"
    if srcdir.isPrefixOf p then .ok (p.drop srcdir.length)
    else .error (str "package not within GOPATH/src")

/-- `globalPath()`: `filepath.Join(gopath, "src", "gx", "ipfs")`, with the
`getGoPath` error ignored (empty gopath on failure). -/
def globalPath (gopathEnv : Str) : Str :=
  let gp := match getGoPath gopathEnv with
            | .ok g => g
            | .error _ => []
  goJoin [gp, str "src", str "gx", str "ipfs"]

/-- `loadDep(dep, pkgdir)`: try `pkgdir/<hash>`, then the global cache
`globalPath()/<hash>`; when both fail, wrap only the second error.
`find` is the `gx.FindPackageInDir` environment (directory ↦ parse result). -/
def loadDep (find : Str → Except Str Package) (gopathEnv : Str)
    (dep : Dependency) (pkgdir : Str) : Except Str Package :=
  let pdir := goJoin [pkgdir, dep.hash]
  match find pdir with
  | .ok cpkg => .ok cpkg
  | .error _ =>
    let p := goJoin [globalPath gopathEnv, dep.hash]
    match find p with
    | .ok cpkg => .ok cpkg
    | .error gerr => .error (str "failed to find package: " ++ gerr)

/-- `addRewriteForDep(dep, pkg, m, undo)`: when the resolved child declares a
DVCS import, insert `dvcsimport ↦ "gx/ipfs/" + dep.Hash + "/" + pkg.Name`
(swapped when `undo`). -/
def addRewriteForDep (dep : Dependency) (pkg : Package) (m : Table)
    (undo : Bool) : Table :=
  if pkg.gx.dvcsimport ≠ [] then
    let f := pkg.gx.dvcsimport
    let t := str "gx/ipfs/" ++ dep.hash ++ str "/" ++ pkg.name
    if undo then mapInsert m t f else mapInsert m f t
  else m

/-- The error wrapper of `buildRewriteMapping`:
`fmt.Errorf("loading dep %q of %q: %s", dep.Name, pkg.Name, err)`. -/
def wrapDepErr (depName pkgName e : Str) : Str :=
  str "loading dep \"" ++ depName ++ str "\" of \"" ++ pkgName ++ str "\": " ++ e

/-- `buildRewriteMapping(pkg, pkgdir, m, undo)`: pre-order walk over the
dependency edges; each resolved child contributes via `addRewriteForDep` and
is recursed into with the same table.  The Go map is mutated in place, so the
model returns the table alongside the optional error; once an error occurs the
remaining edges are skipped (Go returns immediately). -/
def buildRewriteMapping (find : Str → Except Str Package) (gopathEnv : Str) :
    Nat → Package → Str → Table → Bool → Table × Option Str
  | 0, _, _, m, _ => (m, some (str "model: out of fuel"))
  | fuel + 1, pkg, pkgdir, m, undo =>
    pkg.dependencies.foldl
      (fun acc dep =>
        match acc with
        | (m', some e) => (m', some e)
        | (m', none) =>
          match loadDep find gopathEnv dep pkgdir with
          | .error e => (m', some (wrapDepErr dep.name pkg.name e))
          | .ok cpkg =>
            buildRewriteMapping find gopathEnv fuel cpkg pkgdir
              (addRewriteForDep dep cpkg m' undo) undo)
      (m, none)

/-- One conflict diagnostic of `buildMap`: the three `Log` calls name the
shared import path, the already-recorded hash and the newly seen hash. -/
structure ConflictDiag where
  imp : Str
  first : Str
  second : Str
deriving DecidableEq, Repr

/-- `buildMap(pkg, m)`: walk the dependency edges loading each child from
`vendorDir/<hash>`; a child with a fresh DVCS import records
`dvcsimport ↦ dep.Hash` and is recursed into; a child whose import is
already mapped is skipped (`continue`), logging a diagnostic when the
recorded hash differs.  Diagnostics are accumulated in a list; the optional
`Str` is the propagated load error. -/
def buildMap (find : Str → Except Str Package) :
    Nat → Package → Table → List ConflictDiag →
    Table × List ConflictDiag × Option Str
  | 0, _, m, ds => (m, ds, some (str "model: out of fuel"))
  | fuel + 1, pkg, m, ds =>
    pkg.dependencies.foldl
      (fun acc dep =>
        match acc with
        | (m', ds', some e) => (m', ds', some e)
        | (m', ds', none) =>
          match find (goJoin [vendorDir, dep.hash]) with
          | .error e => (m', ds', some e)
          | .ok ch =>
            if ch.gx.dvcsimport ≠ [] then
              match lookupTable m' ch.gx.dvcsimport with
              | some e =>
                if e ≠ dep.hash then
                  (m', ds' ++ [⟨ch.gx.dvcsimport, e, dep.hash⟩], none)
                else (m', ds', none)
              | none =>
                buildMap find fuel ch
                  (mapInsert m' ch.gx.dvcsimport dep.hash) ds'
            else buildMap find fuel ch m' ds')
      (m, ds, none)

/-- The scan loop of `doRewrite`'s lookup closure: the first key `k` of the
table (in iteration order) with `k ++ "/"` a prefix of `s` yields
`strings.Replace(s, k, v, 1)`. -/
def rwmLoop (s : Str) : Table → Option Str
  | [] => none
  | (k, v) :: rest =>
    if (k ++ str "/").isPrefixOf s then some (goReplaceOnce s k v)
    else rwmLoop s rest

/-- The lookup closure `rwm` that `doRewrite` hands to the source-tree
rewriter, with the shared mutable `mapping` threaded explicitly: exact hit,
else first `/`-extended prefix key (cached), else identity (cached). -/
def doRewriteLookup (mapping : Table) (s : Str) : Str × Table :=
  match lookupTable mapping s with
  | some m => (m, mapping)
  | none =>
    match rwmLoop s mapping with
    | some n => (n, mapInsert mapping s n)
    | none => (s, mapInsert mapping s s)

/-- The file filter of `doRewrite`: files ending in `.go`. -/
def doRewriteFilter (s : Str) : Bool := (str ".go").isSuffixOf s

/-- Spec-side definition (for the refinement statement of the Version Gate):
strict lexicographic order on the parsed, truncated component lists, as a
Boolean. -/
def lexLt : List Int → List Int → Bool
  | [], _ => false
  | _ :: _, [] => false
  | x :: xs, y :: ys =>
    if x < y then true
    else if y < x then false
    else lexLt xs ys

/-- Parse a list of components with `goAtoi`, failing when any fails. -/
def parseComps : List Str → Except Unit (List Int)
  | [] => .ok []
  | x :: xs =>
    match goAtoi x, parseComps xs with
    | .ok v, .ok vs => .ok (v :: vs)
    | .error e, _ => .error e
    | .ok _, .error e => .error e

/-- The first table entry (in iteration order) whose key, extended by `/`,
is a prefix of `s`. -/
def firstMatch (s : Str) : Table → Option (Str × Str)
  | [] => none
  | (k, v) :: rest =>
    if (k ++ str "/").isPrefixOf s then some (k, v) else firstMatch s rest

/-- Looking up the key just written always returns the written value. -/
theorem lookupTable_mapInsert_self (m : Table) (k v : Str) :
    lookupTable (mapInsert m k v) k = some v := by
  induction m with
  | nil => simp [mapInsert, lookupTable]
  | cons p rest ih =>
    obtain ⟨a, b⟩ := p
    by_cases h : a = k
    · simp [mapInsert, lookupTable, h]
    · simp [mapInsert, lookupTable, h, ih]

/-- Writing a fresh key grows the table by one entry. -/
theorem mapInsert_length_fresh (m : Table) (k v : Str)
    (h : lookupTable m k = none) : (mapInsert m k v).length = m.length + 1 := by
  induction m with
  | nil => simp [mapInsert]
  | cons p rest ih =>
    obtain ⟨a, b⟩ := p
    by_cases hak : a = k
    · simp [lookupTable, hak] at h
    · simp [lookupTable, hak] at h
      simp [mapInsert, hak, ih h]

/-- A table into which a fresh key was written differs from the original. -/
theorem mapInsert_ne_of_fresh (m : Table) (k v : Str)
    (h : lookupTable m k = none) : mapInsert m k v ≠ m := by
  intro heq
  have := mapInsert_length_fresh m k v h
  rw [heq] at this
  omega

/-- When no key of the table extends to a `/`-prefix of `s`, the scan loop
finds nothing. -/
theorem rwmLoop_none (s : Str) (m : Table)
    (h : ∀ kv ∈ m, ¬((kv.1 ++ str "/").isPrefixOf s = true)) :
    rwmLoop s m = none := by
  induction m with
  | nil => rfl
  | cons p rest ih =>
    obtain ⟨k, v⟩ := p
    have hk : ¬((k ++ str "/").isPrefixOf s = true) := h (k, v) (by simp)
    simp [rwmLoop, hk]
    exact ih fun kv hkv => h kv (by simp [hkv])

/-- The scan loop returns the replacement computed from the first matching
table entry. -/
theorem rwmLoop_eq_firstMatch (s : Str) (m : Table) (k v : Str)
    (h : firstMatch s m = some (k, v)) :
    rwmLoop s m = some (goReplaceOnce s k v) := by
  induction m with
  | nil => simp [firstMatch] at h
  | cons p rest ih =>
    obtain ⟨a, b⟩ := p
    by_cases hp : (a ++ str "/").isPrefixOf s = true
    · simp [firstMatch, hp] at h
      obtain ⟨h1, h2⟩ := h
      subst h1; subst h2
      simp [rwmLoop, hp]
    · simp [firstMatch, hp] at h
      simp [rwmLoop, hp]
      exact ih h

/-- The entry reported by `firstMatch` really matches. -/
theorem firstMatch_isPref (s : Str) (m : Table) (k v : Str)
    (h : firstMatch s m = some (k, v)) :
    (k ++ str "/").isPrefixOf s = true := by
  induction m with
  | nil => simp [firstMatch] at h
  | cons p rest ih =>
    obtain ⟨a, b⟩ := p
    by_cases hp : (a ++ str "/").isPrefixOf s = true
    · simp [firstMatch, hp] at h
      obtain ⟨h1, _⟩ := h
      subst h1; exact hp
    · simp [firstMatch, hp] at h
      exact ih h

/-- A matching key (with `/` appended) is in particular itself a prefix. -/
theorem isPrefixOf_of_slash_ext (k s : Str)
    (h : (k ++ str "/").isPrefixOf s = true) : k.isPrefixOf s = true := by
  rw [List.isPrefixOf_iff_prefix] at h ⊢
  exact (List.prefix_append k (str "/")).trans h

/-- Replacing the first occurrence of a prefix substitutes at the front. -/
theorem goReplaceOnce_of_pref (s k v : Str) (h : k.isPrefixOf s = true) :
    goReplaceOnce s k v = v ++ s.drop k.length := by
  cases s with
  | nil => simp [goReplaceOnce, indexOfSub, h]
  | cons c t => simp [goReplaceOnce, indexOfSub, h]

/-- The comparison loop refines strict lexicographic comparison of the
parsed component lists. -/
theorem versionCompLoop_parsed (as : List Str) :
    ∀ bs xs ys, parseComps as = .ok xs → parseComps bs = .ok ys →
      versionCompLoop as bs = .ok (lexLt xs ys) := by
  induction as with
  | nil =>
    intro bs xs ys ha hb
    simp [parseComps] at ha
    subst ha
    cases bs <;> simp [versionCompLoop, lexLt]
  | cons a as' ih =>
    intro bs xs ys ha hb
    cases hga : goAtoi a with
    | error e => simp [parseComps, hga] at ha
    | ok x =>
      cases hpa : parseComps as' with
      | error e => simp [parseComps, hga, hpa] at ha
      | ok xs' =>
        simp [parseComps, hga, hpa] at ha
        subst ha
        cases bs with
        | nil =>
          simp [parseComps] at hb
          subst hb
          simp [versionCompLoop, hga, lexLt]
        | cons b bs' =>
          cases hgb : goAtoi b with
          | error e => simp [parseComps, hgb] at hb
          | ok y =>
            cases hpb : parseComps bs' with
            | error e => simp [parseComps, hgb, hpb] at hb
            | ok ys' =>
              simp [parseComps, hgb, hpb] at hb
              subst hb
              by_cases h1 : x < y
              · simp [versionCompLoop, hga, hgb, lexLt, h1]
              · by_cases h2 : y < x
                · simp [versionCompLoop, hga, hgb, lexLt, h1, h2]
                · simp [versionCompLoop, hga, hgb, lexLt, h1, h2]
                  exact ih bs' xs' ys' hpa hpb

/-- The comparison loop raises the parse error of the first unparseable
component reached while all earlier pairs parsed equal. -/
theorem versionCompLoop_invalid (as1 : List Str) :
    ∀ bs1 a b as2 bs2, as1.length = bs1.length →
      (∀ p ∈ as1.zip bs1, ∃ v, goAtoi p.1 = .ok v ∧ goAtoi p.2 = .ok v) →
      (goAtoi a = .error () ∨ ∃ v, goAtoi a = .ok v ∧ goAtoi b = .error ()) →
      versionCompLoop (as1 ++ a :: as2) (bs1 ++ b :: bs2) = .error () := by
  induction as1 with
  | nil =>
    intro bs1 a b as2 bs2 hlen hzip herr
    have hb : bs1 = [] := by
      cases bs1 with
      | nil => rfl
      | cons _ _ => simp at hlen
    subst hb
    rcases herr with h | ⟨v, hv, hberr⟩
    · simp [versionCompLoop, h]
    · simp [versionCompLoop, hv, hberr]
  | cons x xs ih =>
    intro bs1 a b as2 bs2 hlen hzip herr
    cases bs1 with
    | nil => simp at hlen
    | cons y ys =>
      obtain ⟨v, hx, hy⟩ := hzip (x, y) (by simp)
      simp only [List.cons_append]
      simp [versionCompLoop, hx, hy]
      exact ih ys a b as2 bs2 (by simpa using hlen)
        (fun p hp => hzip p (by simp [hp])) herr

/-- Claim C9: the result of `getImportPath` is independent of its `pkgpath`
argument — it is computed solely from the process-global working directory
and `$GOPATH`. -/
theorem getImportPath_ignores_arg (gopathEnv cwd p1 p2 : Str) :
    getImportPath gopathEnv cwd p1 = getImportPath gopathEnv cwd p2 := rfl

/-- Claim C3: when every retained component of both version strings parses,
`versionComp` returns exactly the strict lexicographic comparison of the
truncated parsed component lists; and the five concrete table entries of the
spec hold. -/
theorem versionComp_spec :
    (∀ hav req hs rs,
      parseComps ((splitOnChar hav '.').take
        (Nat.min (splitOnChar hav '.').length (splitOnChar req '.').length)) = .ok hs →
      parseComps ((splitOnChar req '.').take
        (Nat.min (splitOnChar hav '.').length (splitOnChar req '.').length)) = .ok rs →
      versionComp hav req = .ok (lexLt hs rs)) ∧
    versionComp (str "1.4") (str "1.4") = .ok false ∧
    versionComp (str "1.3") (str "1.4") = .ok true ∧
    versionComp (str "1.5") (str "1.4") = .ok false ∧
    versionComp (str "1.4.2") (str "1.4") = .ok false ∧
    versionComp (str "2") (str "1.9") = .ok false := by
  refine ⟨?_, by decide, by decide, by decide, by decide, by decide⟩
  intro hav req hs rs ha hb
  exact versionCompLoop_parsed _ _ hs rs ha hb

/-- Witness for the general part of C3, at the spec's own table entry
`compare("1.3", "1.4") == true`. -/
theorem versionComp_spec_witness :
    versionComp (str "1.3") (str "1.4") = .ok true := by
  have h := versionComp_spec.1 (str "1.3") (str "1.4") [1, 3] [1, 4]
    (by decide) (by decide)
  have hl : lexLt [1, 3] [1, 4] = true := by decide
  rw [hl] at h
  exact h

/-- Claim C8, counterexample: `versionComp("0.x", "1.0")` succeeds (with
`true`) although the retained component `"x"` does not parse as a
non-negative integer — the loop decides at the first component and never
parses `"x"`. -/
theorem versionComp_decided_before_invalid :
    versionComp (str "0.x") (str "1.0") = .ok true ∧
    (splitOnChar (str "0.x") '.').take 2 = [str "0", str "x"] ∧
    goAtoi (str "x") = .error () := by decide

/-- Claim C8 (amended): `versionComp` fails with the invalid-version error
exactly when an unparseable retained component is reached before any
strictly-ordering component pair: if all earlier retained pairs parse to
equal integers and the pair at some position has an unparseable component
(the `have` side, or the `req` side with the `have` side parseable), the
call returns the error. -/
theorem versionComp_invalid_component (hav req : Str)
    (as1 bs1 : List Str) (a b : Str) (as2 bs2 : List Str)
    (ha : (splitOnChar hav '.').take
      (Nat.min (splitOnChar hav '.').length (splitOnChar req '.').length)
        = as1 ++ a :: as2)
    (hb : (splitOnChar req '.').take
      (Nat.min (splitOnChar hav '.').length (splitOnChar req '.').length)
        = bs1 ++ b :: bs2)
    (hlen : as1.length = bs1.length)
    (hzip : ∀ p ∈ as1.zip bs1, ∃ v, goAtoi p.1 = .ok v ∧ goAtoi p.2 = .ok v)
    (herr : goAtoi a = .error () ∨ ∃ v, goAtoi a = .ok v ∧ goAtoi b = .error ()) :
    versionComp hav req = .error () := by
  have h := versionCompLoop_invalid as1 bs1 a b as2 bs2 hlen hzip herr
  show versionCompLoop _ _ = _
  rw [ha, hb]
  exact h

/-- Witness for C8 (amended): `versionComp("x", "y")` errors on the
unparseable first component. -/
theorem versionComp_invalid_component_witness :
    versionComp (str "x") (str "y") = .error () := by
  exact versionComp_invalid_component (str "x") (str "y") [] [] (str "x")
    (str "y") [] [] (by decide) (by decide) (by decide) (by simp)
    (Or.inl (by decide))

/-- Claim C1, counterexample: with table `{"a" ↦ "x", "a/b" ↦ "y"}` iterated
in that order and query `"a/b/c"`, the lookup returns `"x/b/c"` — the
substitution for the shorter key `"a"` — although the longer key `"a/b"`
also matches and the longest-prefix answer would be `"y/c"`. -/
theorem doRewriteLookup_not_longest :
    (doRewriteLookup [(str "a", str "x"), (str "a/b", str "y")]
      (str "a/b/c")).1 = str "x/b/c" ∧
    str "x/b/c" ≠ str "y/c" ∧
    (str "a/b" ++ str "/").isPrefixOf (str "a/b/c") = true ∧
    (str "a" ++ str "/").isPrefixOf (str "a/b/c") = true ∧
    (str "a").length < (str "a/b").length := by decide

/-- Claim C1 (amended): for a query `s` that is not an exact key, the lookup
returns `value(k) + s[len(k):]` for the FIRST key `k` in the table's
iteration order whose extension by `"/"` is a prefix of `s` (not necessarily
the longest such key), and caches `(s ↦ result)`; consequently the prefix
substitution law `s = k + "/" + rest ⟹ result = v + "/" + rest` holds
whenever `(k ↦ v)` is that first matching entry (in particular when it is
the only one). -/
theorem doRewriteLookup_first_match (m : Table) (s k v : Str)
    (hmem : lookupTable m s = none)
    (hfm : firstMatch s m = some (k, v)) :
    doRewriteLookup m s =
      (v ++ s.drop k.length, mapInsert m s (v ++ s.drop k.length)) ∧
    ∀ rest, s = k ++ str "/" ++ rest →
      (doRewriteLookup m s).1 = v ++ str "/" ++ rest := by
  have hpre : (k ++ str "/").isPrefixOf s = true := firstMatch_isPref s m k v hfm
  have hk : k.isPrefixOf s = true := isPrefixOf_of_slash_ext k s hpre
  have hloop : rwmLoop s m = some (goReplaceOnce s k v) :=
    rwmLoop_eq_firstMatch s m k v hfm
  have hrep : goReplaceOnce s k v = v ++ s.drop k.length :=
    goReplaceOnce_of_pref s k v hk
  have hmain : doRewriteLookup m s =
      (v ++ s.drop k.length, mapInsert m s (v ++ s.drop k.length)) := by
    simp [doRewriteLookup, hmem, hloop, hrep]
  refine ⟨hmain, ?_⟩
  intro rest hs
  rw [hmain]
  subst hs
  simp [List.drop_left]

/-- Witness for C1 (amended): table `{"github.com/x/y" ↦ "gx/ipfs/Qm/y"}`,
query `"github.com/x/y/sub"`. -/
theorem doRewriteLookup_first_match_witness :
    doRewriteLookup [(str "github.com/x/y", str "gx/ipfs/Qm/y")]
        (str "github.com/x/y/sub") =
      (str "gx/ipfs/Qm/y/sub",
       [(str "github.com/x/y", str "gx/ipfs/Qm/y"),
        (str "github.com/x/y/sub", str "gx/ipfs/Qm/y/sub")]) := by
  have h := (doRewriteLookup_first_match
    [(str "github.com/x/y", str "gx/ipfs/Qm/y")] (str "github.com/x/y/sub")
    (str "github.com/x/y") (str "gx/ipfs/Qm/y") (by decide) (by decide)).1
  rw [h]
  decide

/-- Claim C7: a query that is neither an exact key nor a `/`-extension of
any key resolves to itself, the identity entry `(s ↦ s)` is cached, and a
subsequent lookup of `s` hits the exact-match branch and returns the cached
value without further table growth. -/
theorem doRewriteLookup_identity (m : Table) (s : Str)
    (hmem : lookupTable m s = none)
    (hnp : ∀ kv ∈ m, ¬((kv.1 ++ str "/").isPrefixOf s = true)) :
    doRewriteLookup m s = (s, mapInsert m s s) ∧
    lookupTable (mapInsert m s s) s = some s ∧
    doRewriteLookup (mapInsert m s s) s = (s, mapInsert m s s) := by
  have hloop : rwmLoop s m = none := rwmLoop_none s m hnp
  have hcached := lookupTable_mapInsert_self m s s
  refine ⟨?_, hcached, ?_⟩
  · simp [doRewriteLookup, hmem, hloop]
  · simp [doRewriteLookup, hcached]

/-- Witness for C7: table `{"github.com/a/b" ↦ "gx/ipfs/Qm/b"}`, query
`"fmt"`. -/
theorem doRewriteLookup_identity_witness :
    doRewriteLookup [(str "github.com/a/b", str "gx/ipfs/Qm/b")] (str "fmt") =
      (str "fmt",
       [(str "github.com/a/b", str "gx/ipfs/Qm/b"), (str "fmt", str "fmt")]) ∧
    doRewriteLookup
      [(str "github.com/a/b", str "gx/ipfs/Qm/b"), (str "fmt", str "fmt")]
      (str "fmt") =
      (str "fmt",
       [(str "github.com/a/b", str "gx/ipfs/Qm/b"), (str "fmt", str "fmt")]) := by
  have h := doRewriteLookup_identity
    [(str "github.com/a/b", str "gx/ipfs/Qm/b")] (str "fmt")
    (by decide) (by decide)
  obtain ⟨h1, _, h3⟩ := h
  constructor
  · rw [h1]; decide
  · have : mapInsert [(str "github.com/a/b", str "gx/ipfs/Qm/b")]
        (str "fmt") (str "fmt") =
        [(str "github.com/a/b", str "gx/ipfs/Qm/b"), (str "fmt", str "fmt")] := by
      decide
    rw [← this]
    rw [h3]

/-- Claim C6: for a clean source root (one on which `path.Join(root, "src")`
is plain concatenation), `packagesGoImport` fails with the not-under-root
error when the absolute path does not begin with `root + "/src/"`, and on
success returns exactly the suffix after that prefix. -/
theorem packagesGoImport_spec (gopathEnv gopath p : Str)
    (hgp : getGoPath gopathEnv = .ok gopath)
    (hclean : goJoin [gopath, str "src"] = gopath ++ str "/src") :
    ((gopath ++ str "/src/").isPrefixOf p = true →
      packagesGoImport gopathEnv p =
        .ok (p.drop (gopath ++ str "/src/").length)) ∧
    (¬((gopath ++ str "/src/").isPrefixOf p = true) →
      packagesGoImport gopathEnv p =
        .error (str "package not within GOPATH/src")) := by
  have hsrc : goJoin [gopath, str "src"] ++ str "/" = gopath ++ str "/src/" := by
    rw [hclean, List.append_assoc]
    rfl
  constructor
  · intro hpre
    simp [packagesGoImport, hgp, hsrc, hpre]
  · intro hpre
    simp [packagesGoImport, hgp, hsrc, hpre]

/-- Witness for C6: root `/go`, path `/go/src/foo/bar` resolves to
`foo/bar`; path `/tmp/elsewhere` is rejected. -/
theorem packagesGoImport_spec_witness :
    packagesGoImport (str "/go") (str "/go/src/foo/bar") = .ok (str "foo/bar") ∧
    packagesGoImport (str "/go") (str "/tmp/elsewhere") =
      .error (str "package not within GOPATH/src") := by
  constructor
  · have h := (packagesGoImport_spec (str "/go") (str "/go")
      (str "/go/src/foo/bar") (by decide) (by decide)).1 (by decide)
    rw [h]
    decide
  · exact (packagesGoImport_spec (str "/go") (str "/go")
      (str "/tmp/elsewhere") (by decide) (by decide)).2 (by decide)

/-- Claim C4, counterexample: when both lookups fail, the error returned by
`loadDep` is the fixed prefix `"failed to find package: "` plus the global
lookup's error only — here it contains neither the attempted local location
`pd/Qm1`, nor the dependency's name `mydep`, nor its hash `Qm1`. -/
theorem loadDep_error_unnamed :
    loadDep (fun _ => .error (str "g")) (str "/go")
        ⟨str "mydep", str "Qm1"⟩ (str "pd") =
      .error (str "failed to find package: g") ∧
    indexOfSub (str "failed to find package: g") (str "pd/Qm1") = none ∧
    indexOfSub (str "failed to find package: g") (str "mydep") = none ∧
    indexOfSub (str "failed to find package: g") (str "Qm1") = none := by decide

/-- Claim C4 (amended): `loadDep` first consults `pkgdir/<hash>`; on any
failure there it consults the global cache `globalPath()/<hash>`; a
dependency absent locally but present globally loads successfully; when both
fail, the error is `"failed to find package: "` followed by the global
lookup's error alone (the local location, dependency name and hash are not
part of the returned error). -/
theorem loadDep_two_tier (find : Str → Except Str Package)
    (gopathEnv : Str) (dep : Dependency) (pkgdir : Str) :
    (∀ p, find (goJoin [pkgdir, dep.hash]) = .ok p →
      loadDep find gopathEnv dep pkgdir = .ok p) ∧
    (∀ e p, find (goJoin [pkgdir, dep.hash]) = .error e →
      find (goJoin [globalPath gopathEnv, dep.hash]) = .ok p →
      loadDep find gopathEnv dep pkgdir = .ok p) ∧
    (∀ e ge, find (goJoin [pkgdir, dep.hash]) = .error e →
      find (goJoin [globalPath gopathEnv, dep.hash]) = .error ge →
      loadDep find gopathEnv dep pkgdir =
        .error (str "failed to find package: " ++ ge)) := by
  refine ⟨?_, ?_, ?_⟩
  · intro p h
    simp [loadDep, h]
  · intro e p h1 h2
    simp [loadDep, h1, h2]
  · intro e ge h1 h2
    simp [loadDep, h1, h2]

/-- Witness for C4 (amended): a dependency missing from the local vendor
directory but present in the global cache loads successfully. -/
theorem loadDep_two_tier_witness :
    loadDep
      (fun q => if q = str "/go/src/gx/ipfs/Qm1"
                then .ok ⟨str "d", [], ⟨str "github.com/a/d", []⟩⟩
                else .error (str "no such file"))
      (str "/go") ⟨str "d", str "Qm1"⟩ (str "pd") =
      .ok ⟨str "d", [], ⟨str "github.com/a/d", []⟩⟩ := by
  exact (loadDep_two_tier
    (fun q => if q = str "/go/src/gx/ipfs/Qm1"
              then .ok ⟨str "d", [], ⟨str "github.com/a/d", []⟩⟩
              else .error (str "no such file"))
    (str "/go") ⟨str "d", str "Qm1"⟩ (str "pd")).2.1
    (str "no such file") ⟨str "d", [], ⟨str "github.com/a/d", []⟩⟩
    (by decide) (by decide)

/-- Unfolding of `buildRewriteMapping` at positive fuel. -/
theorem buildRewriteMapping_succ (find : Str → Except Str Package)
    (gopathEnv : Str) (fuel : Nat) (pkg : Package) (pkgdir : Str) (m : Table)
    (undo : Bool) :
    buildRewriteMapping find gopathEnv (fuel + 1) pkg pkgdir m undo =
      pkg.dependencies.foldl
        (fun acc dep =>
          match acc with
          | (m', some e) => (m', some e)
          | (m', none) =>
            match loadDep find gopathEnv dep pkgdir with
            | .error e => (m', some (wrapDepErr dep.name pkg.name e))
            | .ok cpkg =>
              buildRewriteMapping find gopathEnv fuel cpkg pkgdir
                (addRewriteForDep dep cpkg m' undo) undo)
        (m, none) := rfl

/-- A package with no dependency edges leaves the table unchanged. -/
theorem buildRewriteMapping_leaf (find : Str → Except Str Package)
    (gopathEnv : Str) (fuel : Nat) (pkg : Package) (pkgdir : Str) (m : Table)
    (undo : Bool) (h : pkg.dependencies = []) :
    buildRewriteMapping find gopathEnv (fuel + 1) pkg pkgdir m undo =
      (m, none) := by
  rw [buildRewriteMapping_succ, h]
  rfl

/-- Unfolding of `buildMap` at positive fuel. -/
theorem buildMap_succ (find : Str → Except Str Package) (fuel : Nat)
    (pkg : Package) (m : Table) (ds : List ConflictDiag) :
    buildMap find (fuel + 1) pkg m ds =
      pkg.dependencies.foldl
        (fun acc dep =>
          match acc with
          | (m', ds', some e) => (m', ds', some e)
          | (m', ds', none) =>
            match find (goJoin [vendorDir, dep.hash]) with
            | .error e => (m', ds', some e)
            | .ok ch =>
              if ch.gx.dvcsimport ≠ [] then
                match lookupTable m' ch.gx.dvcsimport with
                | some e =>
                  if e ≠ dep.hash then
                    (m', ds' ++ [⟨ch.gx.dvcsimport, e, dep.hash⟩], none)
                  else (m', ds', none)
                | none =>
                  buildMap find fuel ch
                    (mapInsert m' ch.gx.dvcsimport dep.hash) ds'
              else buildMap find fuel ch m' ds')
        (m, ds, none) := rfl

/-- A package with no dependency edges leaves map and diagnostics unchanged. -/
theorem buildMap_leaf (find : Str → Except Str Package) (fuel : Nat)
    (pkg : Package) (m : Table) (ds : List ConflictDiag)
    (h : pkg.dependencies = []) :
    buildMap find (fuel + 1) pkg m ds = (m, ds, none) := by
  rw [buildMap_succ, h]
  rfl

/-- Claim C5: for a dependency edge whose resolved child declares a
non-empty DVCS import, the inserting step of the build writes
`child.DvcsImport ↦ "gx/ipfs/" + dep.Hash + "/" + child.Name` into the
table (the reversed pair when `undo` is set); and for a package with a
single such edge the build produces exactly that insertion. -/
theorem build_round_trip :
    (∀ dep pkg m, pkg.gx.dvcsimport ≠ [] →
      addRewriteForDep dep pkg m false =
        mapInsert m pkg.gx.dvcsimport
          (str "gx/ipfs/" ++ dep.hash ++ str "/" ++ pkg.name) ∧
      addRewriteForDep dep pkg m true =
        mapInsert m (str "gx/ipfs/" ++ dep.hash ++ str "/" ++ pkg.name)
          pkg.gx.dvcsimport) ∧
    (∀ find gopathEnv n pkg pkgdir dep c m undo,
      pkg.dependencies = [dep] →
      loadDep find gopathEnv dep pkgdir = .ok c →
      c.dependencies = [] →
      buildRewriteMapping find gopathEnv (n + 2) pkg pkgdir m undo =
        (addRewriteForDep dep c m undo, none)) := by
  constructor
  · intro dep pkg m hne
    exact ⟨by simp [addRewriteForDep, hne], by simp [addRewriteForDep, hne]⟩
  · intro find gopathEnv n pkg pkgdir dep c m undo hdeps hload hcdeps
    show buildRewriteMapping find gopathEnv (n + 1 + 1) pkg pkgdir m undo = _
    rw [buildRewriteMapping_succ, hdeps]
    simp only [List.foldl]
    rw [hload]
    exact buildRewriteMapping_leaf find gopathEnv n c pkgdir _ undo hcdeps

/-- Witness for C5: the spec's round-trip example — DVCS import
`github.com/x/y`, hash `Qm123`, name `y`: the forward build contains
`("github.com/x/y" ↦ "gx/ipfs/Qm123/y")` and the undo build the reverse. -/
theorem build_round_trip_witness :
    buildRewriteMapping
      (fun q => if q = str "root/Qm123"
                then .ok ⟨str "y", [], ⟨str "github.com/x/y", []⟩⟩
                else .error (str "nope"))
      (str "/go") 2 ⟨str "p", [⟨str "y", str "Qm123"⟩], ⟨[], []⟩⟩
      (str "root") [] false =
      ([(str "github.com/x/y", str "gx/ipfs/Qm123/y")], none) ∧
    buildRewriteMapping
      (fun q => if q = str "root/Qm123"
                then .ok ⟨str "y", [], ⟨str "github.com/x/y", []⟩⟩
                else .error (str "nope"))
      (str "/go") 2 ⟨str "p", [⟨str "y", str "Qm123"⟩], ⟨[], []⟩⟩
      (str "root") [] true =
      ([(str "gx/ipfs/Qm123/y", str "github.com/x/y")], none) := by
  constructor
  · have h := build_round_trip.2
      (fun q => if q = str "root/Qm123"
                then .ok ⟨str "y", [], ⟨str "github.com/x/y", []⟩⟩
                else .error (str "nope"))
      (str "/go") 0 ⟨str "p", [⟨str "y", str "Qm123"⟩], ⟨[], []⟩⟩
      (str "root") ⟨str "y", str "Qm123"⟩
      ⟨str "y", [], ⟨str "github.com/x/y", []⟩⟩ [] false
      rfl (by decide) rfl
    exact h.trans (by decide)
  · have h := build_round_trip.2
      (fun q => if q = str "root/Qm123"
                then .ok ⟨str "y", [], ⟨str "github.com/x/y", []⟩⟩
                else .error (str "nope"))
      (str "/go") 0 ⟨str "p", [⟨str "y", str "Qm123"⟩], ⟨[], []⟩⟩
      (str "root") ⟨str "y", str "Qm123"⟩
      ⟨str "y", [], ⟨str "github.com/x/y", []⟩⟩ [] true
      rfl (by decide) rfl
    exact h.trans (by decide)

/-- Claim C2, counterexample: two edges (hashes `Qm1`, `Qm2`) whose children
both declare DVCS import `github.com/a/b`; the rewrite-table build succeeds
but the table retains the SECOND mapping (`gx/ipfs/Qm2/b`), not the first
(`gx/ipfs/Qm1/b`), and the build has no diagnostic output at all. -/
theorem buildRewriteMapping_conflict_last_wins :
    buildRewriteMapping
      (fun q => if q = str "pd/Qm1"
                then .ok ⟨str "b", [], ⟨str "github.com/a/b", []⟩⟩
                else if q = str "pd/Qm2"
                then .ok ⟨str "b", [], ⟨str "github.com/a/b", []⟩⟩
                else .error (str "nope"))
      (str "/go") 3
      ⟨str "p", [⟨str "b", str "Qm1"⟩, ⟨str "b", str "Qm2"⟩], ⟨[], []⟩⟩
      (str "pd") [] false =
      ([(str "github.com/a/b", str "gx/ipfs/Qm2/b")], none) ∧
    str "gx/ipfs/Qm2/b" ≠ str "gx/ipfs/Qm1/b" := by decide

/-- Claim C2 (amended): in the rewrite-table build
(`buildRewriteMapping`/`addRewriteForDep`) a conflicting edge silently
overwrites — the build does not fail, exactly one mapping is retained for
the shared import, namely the LAST one encountered in traversal order, and
no diagnostic is emitted (the build has no diagnostic output).  The
first-seen-wins-with-diagnostic behaviour the claim describes belongs to the
dep-map build `buildMap`, which does not fail, retains the first mapping and
records a diagnostic naming both hashes. -/
theorem conflict_handling_by_builder :
    (∀ find gopathEnv n pkg pkgdir D1 D2 c1 c2 d,
      pkg.dependencies = [D1, D2] →
      loadDep find gopathEnv D1 pkgdir = .ok c1 →
      loadDep find gopathEnv D2 pkgdir = .ok c2 →
      c1.dependencies = [] → c2.dependencies = [] →
      c1.gx.dvcsimport = d → c2.gx.dvcsimport = d → d ≠ [] →
      buildRewriteMapping find gopathEnv (n + 2) pkg pkgdir [] false =
        ([(d, str "gx/ipfs/" ++ D2.hash ++ str "/" ++ c2.name)], none)) ∧
    (∀ find n pkg D1 D2 c1 c2 d,
      pkg.dependencies = [D1, D2] →
      find (goJoin [vendorDir, D1.hash]) = .ok c1 →
      find (goJoin [vendorDir, D2.hash]) = .ok c2 →
      c1.dependencies = [] →
      c1.gx.dvcsimport = d → c2.gx.dvcsimport = d → d ≠ [] →
      D1.hash ≠ D2.hash →
      buildMap find (n + 2) pkg [] [] =
        ([(d, D1.hash)], [⟨d, D1.hash, D2.hash⟩], none)) := by
  constructor
  · intro find g n pkg pkgdir D1 D2 c1 c2 d hdeps h1 h2 hc1 hc2 hd1 hd2 hne
    show buildRewriteMapping find g (n + 1 + 1) pkg pkgdir [] false = _
    rw [buildRewriteMapping_succ, hdeps]
    simp only [List.foldl]
    rw [h1]
    have hstep1 : buildRewriteMapping find g (n + 1) c1 pkgdir
        (addRewriteForDep D1 c1 [] false) false =
        (addRewriteForDep D1 c1 [] false, none) :=
      buildRewriteMapping_leaf find g n c1 pkgdir _ false hc1
    simp only [hstep1]
    rw [h2]
    have hstep2 : buildRewriteMapping find g (n + 1) c2 pkgdir
        (addRewriteForDep D2 c2 (addRewriteForDep D1 c1 [] false) false) false =
        (addRewriteForDep D2 c2 (addRewriteForDep D1 c1 [] false) false, none) :=
      buildRewriteMapping_leaf find g n c2 pkgdir _ false hc2
    simp only [hstep2]
    simp [addRewriteForDep, hd1, hd2, hne, mapInsert]
  · intro find n pkg D1 D2 c1 c2 d hdeps h1 h2 hc1 hd1 hd2 hne hh
    show buildMap find (n + 1 + 1) pkg [] [] = _
    rw [buildMap_succ, hdeps]
    simp only [List.foldl]
    rw [h1]
    simp only [hd1, lookupTable]
    have hcond : (d ≠ []) = True := by simp [hne]
    simp only [hcond, if_true]
    have hstep1 : buildMap find (n + 1) c1 (mapInsert [] d D1.hash) [] =
        (mapInsert [] d D1.hash, [], none) :=
      buildMap_leaf find n c1 _ [] hc1
    simp only [mapInsert] at hstep1 ⊢
    simp only [hstep1]
    rw [h2]
    simp only [hd2, hcond, if_true, lookupTable, if_pos rfl]
    simp [hh]

/-- Witness for C2 (amended): the conflict scenario of the spec, run through
both builds — the rewrite build keeps the last mapping silently, the dep-map
build keeps the first and logs both hashes. -/
theorem conflict_handling_by_builder_witness :
    buildRewriteMapping
      (fun q => if q = str "pd/Qm1"
                then .ok ⟨str "b1", [], ⟨str "github.com/a/b", []⟩⟩
                else if q = str "pd/Qm2"
                then .ok ⟨str "b2", [], ⟨str "github.com/a/b", []⟩⟩
                else .error (str "nope"))
      (str "/go") 3
      ⟨str "p", [⟨str "b", str "Qm1"⟩, ⟨str "b", str "Qm2"⟩], ⟨[], []⟩⟩
      (str "pd") [] false =
      ([(str "github.com/a/b", str "gx/ipfs/Qm2/b2")], none) ∧
    buildMap
      (fun q => if q = str "vendor/gx/ipfs/Qm1"
                then .ok ⟨str "b1", [], ⟨str "github.com/a/b", []⟩⟩
                else if q = str "vendor/gx/ipfs/Qm2"
                then .ok ⟨str "b2", [], ⟨str "github.com/a/b", []⟩⟩
                else .error (str "nope"))
      3 ⟨str "p", [⟨str "b", str "Qm1"⟩, ⟨str "b", str "Qm2"⟩], ⟨[], []⟩⟩
      [] [] =
      ([(str "github.com/a/b", str "Qm1")],
       [⟨str "github.com/a/b", str "Qm1", str "Qm2"⟩], none) := by
  constructor
  · have h := conflict_handling_by_builder.1
      (fun q => if q = str "pd/Qm1"
                then .ok ⟨str "b1", [], ⟨str "github.com/a/b", []⟩⟩
                else if q = str "pd/Qm2"
                then .ok ⟨str "b2", [], ⟨str "github.com/a/b", []⟩⟩
                else .error (str "nope"))
      (str "/go") 1
      ⟨str "p", [⟨str "b", str "Qm1"⟩, ⟨str "b", str "Qm2"⟩], ⟨[], []⟩⟩
      (str "pd") ⟨str "b", str "Qm1"⟩ ⟨str "b", str "Qm2"⟩
      ⟨str "b1", [], ⟨str "github.com/a/b", []⟩⟩
      ⟨str "b2", [], ⟨str "github.com/a/b", []⟩⟩
      (str "github.com/a/b")
      rfl (by decide) (by decide) rfl rfl rfl rfl (by decide)
    exact h.trans (by decide)
  · have h := conflict_handling_by_builder.2
      (fun q => if q = str "vendor/gx/ipfs/Qm1"
                then .ok ⟨str "b1", [], ⟨str "github.com/a/b", []⟩⟩
                else if q = str "vendor/gx/ipfs/Qm2"
                then .ok ⟨str "b2", [], ⟨str "github.com/a/b", []⟩⟩
                else .error (str "nope"))
      1 ⟨str "p", [⟨str "b", str "Qm1"⟩, ⟨str "b", str "Qm2"⟩], ⟨[], []⟩⟩
      ⟨str "b", str "Qm1"⟩ ⟨str "b", str "Qm2"⟩
      ⟨str "b1", [], ⟨str "github.com/a/b", []⟩⟩
      ⟨str "b2", [], ⟨str "github.com/a/b", []⟩⟩
      (str "github.com/a/b")
      rfl (by decide) (by decide) rfl rfl rfl (by decide) (by decide)
    exact h.trans (by decide)

/-- Claim C10: `buildRewriteMapping` is not atomic on failure — when the
first edge inserts and the second fails to load, the function reports the
(wrapped) error while the table keeps the first edge's insertion; it is not
restored to its pre-call state. -/
theorem buildRewriteMapping_not_atomic (find : Str → Except Str Package)
    (gopathEnv : Str) (n : Nat) (pkg : Package) (pkgdir : Str)
    (D1 D2 : Dependency) (c1 : Package) (e : Str) (m : Table)
    (hdeps : pkg.dependencies = [D1, D2])
    (h1 : loadDep find gopathEnv D1 pkgdir = .ok c1)
    (hc1 : c1.dependencies = [])
    (hd : c1.gx.dvcsimport ≠ [])
    (hfresh : lookupTable m c1.gx.dvcsimport = none)
    (h2 : loadDep find gopathEnv D2 pkgdir = .error e) :
    buildRewriteMapping find gopathEnv (n + 2) pkg pkgdir m false =
      (addRewriteForDep D1 c1 m false,
       some (wrapDepErr D2.name pkg.name e)) ∧
    addRewriteForDep D1 c1 m false ≠ m := by
  constructor
  · show buildRewriteMapping find gopathEnv (n + 1 + 1) pkg pkgdir m false = _
    rw [buildRewriteMapping_succ, hdeps]
    simp only [List.foldl]
    rw [h1]
    have hstep1 : buildRewriteMapping find gopathEnv (n + 1) c1 pkgdir
        (addRewriteForDep D1 c1 m false) false =
        (addRewriteForDep D1 c1 m false, none) :=
      buildRewriteMapping_leaf find gopathEnv n c1 pkgdir _ false hc1
    simp only [hstep1]
    rw [h2]
  · have ha : addRewriteForDep D1 c1 m false =
        mapInsert m c1.gx.dvcsimport
          (str "gx/ipfs/" ++ D1.hash ++ str "/" ++ c1.name) := by
      simp [addRewriteForDep, hd]
    rw [ha]
    exact mapInsert_ne_of_fresh m _ _ hfresh

/-- Witness for C10: first edge `Qm1` resolves and inserts, second edge
`Qm2` is missing everywhere; the error is reported and the insertion
survives in the returned table. -/
theorem buildRewriteMapping_not_atomic_witness :
    buildRewriteMapping
      (fun q => if q = str "pd/Qm1"
                then .ok ⟨str "b", [], ⟨str "github.com/a/b", []⟩⟩
                else .error (str "boom"))
      (str "/go") 3
      ⟨str "p", [⟨str "d1", str "Qm1"⟩, ⟨str "d2", str "Qm2"⟩], ⟨[], []⟩⟩
      (str "pd") [] false =
      ([(str "github.com/a/b", str "gx/ipfs/Qm1/b")],
       some (str "loading dep \"d2\" of \"p\": failed to find package: boom")) := by
  have h := buildRewriteMapping_not_atomic
    (fun q => if q = str "pd/Qm1"
              then .ok ⟨str "b", [], ⟨str "github.com/a/b", []⟩⟩
              else .error (str "boom"))
    (str "/go") 1
    ⟨str "p", [⟨str "d1", str "Qm1"⟩, ⟨str "d2", str "Qm2"⟩], ⟨[], []⟩⟩
    (str "pd") ⟨str "d1", str "Qm1"⟩ ⟨str "d2", str "Qm2"⟩
    ⟨str "b", [], ⟨str "github.com/a/b", []⟩⟩
    (str "failed to find package: boom") []
    rfl (by decide) rfl (by decide) rfl (by decide)
  exact h.1.trans (by decide)
